import Mathlib

/-!
Verification of the `tlumok` translation-memory cache engine.

Shallow embedding of the core subsystem:

* `src/key_value_cache/cache_service.rs` — the generic time-expiring
  key-value cache `CacheFor<KV>` backed by a persistent ordered store
  (sled).  The sled database is modelled as an association list of
  `(key, CacheEntry value)` pairs; the wall clock (`crate::now()`,
  returning `chrono::NaiveDateTime`) is modelled as a `Nat` passed
  explicitly to every operation that reads the clock.
* `src/main.rs` (`translation_service` module) — the dictionary service
  built on top: `save_translation`, `get_suggestions_from_db`,
  `get_project_suggestions`, `get_global_suggestions`.

Stateful Rust methods become Lean functions that return the updated
store next to their result.  Fallible codec / IO plumbing that cannot
fail in the model (bincode of well-typed values, `chrono` duration
conversion of a `Nat`) is dropped; the one failure channel a claim
depends on — the enumeration step of `get_global_suggestions` — is
kept as an explicit `Except`.
-/

namespace Tlumok

/-- Rust `crate::AppTime = chrono::NaiveDateTime`: a totally ordered instant,
modelled as a natural number. -/
abbrev AppTime := Nat

/-- Rust `std::time::Duration`, modelled as a natural number of the same
units as `AppTime`. -/
abbrev Duration := Nat

/-- Rust `ExpiresAfter` from `cache_service.rs` (source names: `Never`,
`After(Duration)`). -/
inductive ExpiresAfter where
  | never
  | after (d : Duration)
deriving DecidableEq

/-- Rust `ExpiresAfter::expired(self, created) -> Result<bool>`: `Never`
never expires; `After(d)` is expired when `created + d < now`.  The
Rust `Result` only carries a `chrono` duration-conversion failure that
cannot occur for `Nat` durations, so the model is total.  `now` is the
explicit clock argument. -/
def ExpiresAfter.expired : ExpiresAfter → AppTime → AppTime → Bool
  | .never, _, _ => false
  | .after d, created, now => decide (created + d < now)

/-- Rust `CacheEntry<V>` from `cache_service.rs`. -/
structure CacheEntry (V : Type) where
  value : V
  created : AppTime
deriving DecidableEq

/-- Contents of one sled database: an association list from (encoded)
keys to entries.  `db.get` is first-match lookup. -/
def dbGet [DecidableEq K] : List (K × CacheEntry V) → K → Option (CacheEntry V)
  | [], _ => none
  | (k', e) :: rest, k => if k' = k then some e else dbGet rest k

/-- Rust `sled::Db::insert`: overwrite the entry for `k` if present,
otherwise add it. -/
def dbInsert [DecidableEq K] : List (K × CacheEntry V) → K → CacheEntry V →
    List (K × CacheEntry V)
  | [], k, e => [(k, e)]
  | (k', e') :: rest, k, e =>
    if k' = k then (k, e) :: rest else (k', e') :: dbInsert rest k e

/-- Rust `sled::Db::remove`: drop the entry for `k`; absence is not an
error. -/
def dbRemove [DecidableEq K] (db : List (K × CacheEntry V)) (k : K) :
    List (K × CacheEntry V) :=
  db.filter (fun p => decide (p.1 ≠ k))

/-- Rust `CacheFor<KV>` from `cache_service.rs`: the expiration policy fixed
at open time plus the backing sled database. -/
structure CacheFor (K V : Type) where
  expires_after : ExpiresAfter
  db : List (K × CacheEntry V)
deriving DecidableEq

variable {K V : Type} [DecidableEq K]

/-- Rust `CacheFor::get_internal`: raw db read of the stored entry. -/
def CacheFor.get_internal (c : CacheFor K V) (k : K) : Option (CacheEntry V) :=
  dbGet c.db k

/-- Rust `CacheFor::insert_internal`: raw db write of an entry. -/
def CacheFor.insert_internal (c : CacheFor K V) (k : K) (e : CacheEntry V) :
    CacheFor K V :=
  { c with db := dbInsert c.db k e }

/-- Rust `CacheFor::remove`: unconditional delete. -/
def CacheFor.remove (c : CacheFor K V) (k : K) : CacheFor K V :=
  { c with db := dbRemove c.db k }

/-- Rust `DbGetResult<KV>` from `cache_service.rs` (source names: `Return`,
`NotFound`, `Remove`). -/
inductive DbGetResult (K V : Type) where
  | ret (v : V)
  | notFound
  | rem (k : K)

/-- Rust `CacheFor::get`: read the entry; an entry whose age the policy
judges expired is removed and `None` returned (removal failure is
logged and swallowed in the Rust, so the model's infallible removal is
faithful to the caller-visible behaviour); a live entry is returned
unchanged.  Returns the result next to the updated store. -/
def CacheFor.get (c : CacheFor K V) (now : AppTime) (k : K) :
    Option V × CacheFor K V :=
  let result : DbGetResult K V :=
    match c.get_internal k with
    | some entry =>
      if c.expires_after.expired entry.created now then .rem k else .ret entry.value
    | none => .notFound
  match result with
  | .ret v => (some v, c)
  | .notFound => (none, c)
  | .rem k => (none, c.remove k)

/-- Rust `CacheFor::insert`: insert-if-absent.  A `get` is performed first;
if it yields `Some` the call is a silent no-op, otherwise the value is
stored stamped with `created = now`.  The `get`'s eviction side effect
on the store is kept, as in the Rust. -/
def CacheFor.insert (c : CacheFor K V) (now : AppTime) (k : K) (v : V) :
    CacheFor K V :=
  match c.get now k with
  | (some _, c') => c'
  | (none, c') => c'.insert_internal k { value := v, created := now }

/-- Rust `SearchResult<KV>` from `cache_service.rs`. -/
inductive SearchResult (K V : Type) where
  | found (kv : K × V)
  | notFound (k : K)
deriving DecidableEq

/-- Rust `GetManyResults<KV>` from `cache_service.rs`. -/
structure GetManyResults (K V : Type) where
  found : List (K × V)
  not_found_keys : List K
  found_keys : List K
deriving DecidableEq

/-- The collection phase of `CacheFor::get_many`: `get` applied to
every key with `buffer_unordered(1)`, i.e. strictly one at a time in
input order, threading the store (each `get` may evict an expired
entry). -/
def CacheFor.searchMany (c : CacheFor K V) (now : AppTime) :
    List K → List (SearchResult K V) × CacheFor K V
  | [] => ([], c)
  | k :: ks =>
    let step := c.get now k
    let sr : SearchResult K V :=
      match step.1 with
      | some value => .found (k, value)
      | none => .notFound k
    let rest := step.2.searchMany now ks
    (sr :: rest.1, rest.2)

/-- One step of the fold phase of `CacheFor::get_many` (the closure of
the source's `results.into_iter().fold(..)`): push a search result
onto the accumulated `found` / `found_keys` / `not_found_keys`
vectors. -/
def pushSearchResult (acc : GetManyResults K V) (sr : SearchResult K V) :
    GetManyResults K V :=
  match sr with
  | .found (k, v) =>
    { acc with found_keys := acc.found_keys ++ [k], found := acc.found ++ [(k, v)] }
  | .notFound k =>
    { acc with not_found_keys := acc.not_found_keys ++ [k] }

/-- The fold phase of `CacheFor::get_many`: partition the collected
search results into `found` / `found_keys` / `not_found_keys` by
pushing onto the three vectors in iteration order. -/
def foldSearchResults (rs : List (SearchResult K V)) : GetManyResults K V :=
  rs.foldl pushSearchResult { found := [], not_found_keys := [], found_keys := [] }

/-- Rust `CacheFor::get_many`. -/
def CacheFor.get_many (c : CacheFor K V) (now : AppTime) (ks : List K) :
    GetManyResults K V × CacheFor K V :=
  let collected := c.searchMany now ks
  (foldSearchResults collected.1, collected.2)

/-- Rust `CacheFor::update`: `insert` applied to every pair, one at a
time. -/
def CacheFor.update (c : CacheFor K V) (now : AppTime)
    (entries : List (K × V)) : CacheFor K V :=
  entries.foldl (fun acc kv => acc.insert now kv.1 kv.2) c

/-- Rust `CacheFor::get_all`: full scan.  Each stored entry is paired with
its `expired` verdict, then — exactly as the source's
`filter_map(|(entry, expired)| expired.then_some(entry))` — the
entries whose verdict is `true` are kept and projected to their
values; `found_keys` mirrors `found` and `not_found_keys` is empty.
The scan performs no removals. -/
def CacheFor.get_all (c : CacheFor K V) (now : AppTime) : GetManyResults K V :=
  let found :=
    ((c.db.map fun ke => (ke, c.expires_after.expired ke.2.created now)).filterMap
        fun pair => if pair.2 then some pair.1 else none).map
      fun ke => (ke.1, ke.2.value)
  { found := found
    not_found_keys := []
    found_keys := found.map (·.1) }

/-! ## The dictionary layer (`src/main.rs`, module `translation_service`) -/

/-- Rust `type Translation = (String, Vec<String>)`: the key/value pair type
of a dictionary store — source phrase to the ordered list of accepted
translations. -/
abbrev Translation := String × List String

/-- On-disk contents of one project dictionary database. -/
abbrev DictDb := List (String × CacheEntry (List String))

/-- Rust `TranslationCache = CacheFor<Translation>`. -/
abbrev TranslationCache := CacheFor String (List String)

/-- Rust `original_document_path_project_key`: path components joined with
an underscore.  A path is modelled as its component list. -/
def original_document_path_project_key (components : List String) : String :=
  String.intercalate "_" components

/-- Rust `dictionary_at_path`: opens the store at the given path with policy
`ExpiresAfter::Never`.  The filesystem path resolution is out of the
model; the store is constructed over whatever entries the on-disk
database at that path holds. -/
def dictionary_at_path (db : DictDb) : TranslationCache :=
  { expires_after := ExpiresAfter.never, db := db }

/-- Rust `project_dictionary`: derives the project key from the document
path and opens the dictionary at the derived address via
`dictionary_at_path` (hence with policy `Never`).  Address derivation
is pure string/path plumbing; the model takes the contents found at
that address. -/
def project_dictionary (db : DictDb) : TranslationCache :=
  dictionary_at_path db

/-- Rust `MatchType` from `main.rs`.  The second constructor is the source's
`PartialPercent(u32)`, renamed here. -/
inductive MatchType where
  | exact
  | fuzzyPercent (n : Nat)
deriving DecidableEq

/-- Rust `DictionarySuggestion` from `main.rs`. -/
structure DictionarySuggestion where
  original_text : String
  translated_text : String
  match_type : MatchType
deriving DecidableEq

namespace DictionaryService

/-- Rust `DictionaryService::save_translation`: open the project dictionary,
read the current `Translation` list for `original_text` (empty if
absent), append `translated_text`, and hand the appended list to the
store's `insert`.  Returns the resulting on-disk contents. -/
def save_translation (disk : DictDb) (now : AppTime)
    (original_text translated_text : String) : DictDb :=
  let cache := project_dictionary disk
  let read := cache.get now original_text
  let current := read.1.getD []
  let updated := current ++ [translated_text]
  (read.2.insert now original_text updated).db

/-- Rust `DictionaryService::get_suggestions_from_db`: look up
`original_text` and map every stored translated text to an `Exact`
suggestion, preserving order. -/
def get_suggestions_from_db (db : TranslationCache) (now : AppTime)
    (original_text : String) : List DictionarySuggestion × TranslationCache :=
  let read := db.get now original_text
  match read.1 with
  | some exact =>
    (exact.map fun translated_text =>
        { original_text := original_text
          translated_text := translated_text
          match_type := MatchType.exact },
      read.2)
  | none => ([], read.2)

/-- Rust `DictionaryService::get_project_suggestions`: open the single
project-scoped store and delegate to `get_suggestions_from_db`. -/
def get_project_suggestions (disk : DictDb) (now : AppTime)
    (original_text : String) : List DictionarySuggestion :=
  (get_suggestions_from_db (project_dictionary disk) now original_text).1

/-- The merge loop of `get_global_suggestions`: walk the flattened
suggestions, skip any whose `translated_text` is already in the
`uniques` seen-set, otherwise record it and keep the suggestion
(first occurrence wins). -/
def dedupByTranslatedText :
    List DictionarySuggestion → List String → List DictionarySuggestion
  | [], _ => []
  | s :: rest, uniques =>
    if s.translated_text ∈ uniques then dedupByTranslatedText rest uniques
    else s :: dedupByTranslatedText rest (s.translated_text :: uniques)

/-- Rust `DictionaryService::get_global_suggestions`.  The enumeration of
the language-pair directory is modelled by its outcome: either the
directory listing failed (`Except.error`, propagated by the source's
`?`), or it produced a list of project addresses, each carrying
`some db` when `dictionary_at_path` succeeded on it and `none` when
the open failed (skipped by the source's `filter_map(.. .ok())`).
Each opened dictionary is queried and the per-project suggestion
lists, in arrival order, are flattened and deduplicated by translated
text. -/
def get_global_suggestions (listing : Except String (List (Option DictDb)))
    (now : AppTime) (original_text : String) :
    Except String (List DictionarySuggestion) :=
  match listing with
  | .error e => .error e
  | .ok dirs =>
    let dictionaries := dirs.filterMap id
    let suggestions := dictionaries.map fun db =>
      (get_suggestions_from_db (dictionary_at_path db) now original_text).1
    .ok (dedupByTranslatedText suggestions.flatten [])

end DictionaryService

/-! ## Basic lemmas about the store embedding -/

theorem dbGet_dbInsert_self (db : List (K × CacheEntry V)) (k : K)
    (e : CacheEntry V) : dbGet (dbInsert db k e) k = some e := by
  induction db with
  | nil => simp [dbInsert, dbGet]
  | cons p rest ih =>
    obtain ⟨k', e'⟩ := p
    by_cases h : k' = k
    · subst h; simp [dbInsert, dbGet]
    · simp [dbInsert, h, dbGet, ih]

theorem dbGet_dbRemove_self (db : List (K × CacheEntry V)) (k : K) :
    dbGet (dbRemove db k) k = none := by
  induction db with
  | nil => rfl
  | cons p rest ih =>
    obtain ⟨k', e'⟩ := p
    by_cases h : k' = k
    · subst h; simpa [dbRemove, dbGet] using ih
    · simpa [dbRemove, dbGet, h] using ih

theorem dbGet_dbRemove_ne (db : List (K × CacheEntry V)) {k k' : K}
    (h : k' ≠ k) : dbGet (dbRemove db k) k' = dbGet db k' := by
  induction db with
  | nil => rfl
  | cons p rest ih =>
    obtain ⟨k0, e0⟩ := p
    by_cases hk : k0 = k
    · subst hk
      have : k0 ≠ k' := fun hc => h hc.symm
      simp [dbRemove, dbGet, this] at ih ⊢
      exact ih
    · by_cases hk' : k0 = k'
      · subst hk'; simp [dbRemove, dbGet, hk]
      · simp [dbRemove, dbGet, hk, hk'] at ih ⊢
        exact ih

/-- Characterization of `CacheFor.get` used throughout: the result is
determined by the raw lookup and the expiry verdict. -/
theorem CacheFor.get_eq (c : CacheFor K V) (now : AppTime) (k : K) :
    c.get now k =
      match dbGet c.db k with
      | none => (none, c)
      | some e =>
        if c.expires_after.expired e.created now then (none, c.remove k)
        else (some e.value, c) := by
  unfold CacheFor.get CacheFor.get_internal
  cases h : dbGet c.db k with
  | none => rfl
  | some e =>
    by_cases he : c.expires_after.expired e.created now <;> simp [he]

theorem CacheFor.expires_after_remove (c : CacheFor K V) (k : K) :
    (c.remove k).expires_after = c.expires_after := rfl

theorem CacheFor.expires_after_get (c : CacheFor K V) (now : AppTime) (k : K) :
    ((c.get now k).2).expires_after = c.expires_after := by
  rw [CacheFor.get_eq]
  cases h : dbGet c.db k with
  | none => rfl
  | some e =>
    by_cases he : c.expires_after.expired e.created now <;> simp [he, CacheFor.remove]

/-- A `get` for one key does not change what a subsequent `get` at the
same instant returns for any key: the only possible store mutation is
the eviction of an entry that was already reported absent. -/
theorem CacheFor.get_fst_after_get (c : CacheFor K V) (now : AppTime)
    (k0 k : K) : (((c.get now k0).2).get now k).1 = (c.get now k).1 := by
  rw [CacheFor.get_eq c now k0]
  cases h0 : dbGet c.db k0 with
  | none => simp
  | some e =>
    by_cases he : c.expires_after.expired e.created now
    · simp only [he, if_true]
      rw [CacheFor.get_eq, CacheFor.get_eq]
      by_cases hk : k = k0
      · subst hk
        rw [show (c.remove k).db = dbRemove c.db k from rfl, dbGet_dbRemove_self, h0]
        simp [he, CacheFor.remove]
      · rw [show (c.remove k0).db = dbRemove c.db k0 from rfl, dbGet_dbRemove_ne c.db hk]
        cases h : dbGet c.db k with
        | none => simp
        | some e' =>
          by_cases he' : c.expires_after.expired e'.created now <;>
            simp [CacheFor.remove, he']
    · simp [he]

/-! ## Characterization of `get_many` -/

/-- Classifier of one key in a `get_many` scan: the `SearchResult` the
scan produces for it against a fixed store. -/
def classifyKey (c : CacheFor K V) (now : AppTime) (k : K) : SearchResult K V :=
  match (c.get now k).1 with
  | some v => .found (k, v)
  | none => .notFound k

/-- The collection phase classifies every key against the initial
store: the evictions a scan performs never change later answers. -/
theorem searchMany_fst (c : CacheFor K V) (now : AppTime) (ks : List K) :
    (c.searchMany now ks).1 = ks.map (classifyKey c now) := by
  induction ks generalizing c with
  | nil => rfl
  | cons k ks ih =>
    show (classifyKey c now k :: ((c.get now k).2.searchMany now ks).1) = _
    rw [List.map_cons, ih]
    congr 1
    exact List.map_congr_left fun a _ => by
      unfold classifyKey
      rw [CacheFor.get_fst_after_get]

/-- Projection of a search result to a found pair. -/
def srFound : SearchResult K V → Option (K × V)
  | .found kv => some kv
  | .notFound _ => none

/-- Projection of a search result to a found key. -/
def srFoundKey : SearchResult K V → Option K
  | .found kv => some kv.1
  | .notFound _ => none

/-- Projection of a search result to a not-found key. -/
def srNotFoundKey : SearchResult K V → Option K
  | .found _ => none
  | .notFound k => some k

omit [DecidableEq K] in
theorem foldl_pushSearchResult (rs : List (SearchResult K V))
    (acc : GetManyResults K V) :
    rs.foldl pushSearchResult acc =
      { found := acc.found ++ rs.filterMap srFound
        not_found_keys := acc.not_found_keys ++ rs.filterMap srNotFoundKey
        found_keys := acc.found_keys ++ rs.filterMap srFoundKey } := by
  induction rs generalizing acc with
  | nil => simp
  | cons sr rs ih =>
    cases sr with
    | found kv =>
      obtain ⟨k, v⟩ := kv
      simp [pushSearchResult, ih, srFound, srFoundKey, srNotFoundKey]
    | notFound k =>
      simp [pushSearchResult, ih, srFound, srFoundKey, srNotFoundKey]

omit [DecidableEq K] in
theorem filterMap_congr_mem {f g : K → Option V} {l : List K}
    (h : ∀ a ∈ l, f a = g a) : l.filterMap f = l.filterMap g := by
  induction l with
  | nil => rfl
  | cons a l ih =>
    rw [List.filterMap_cons, List.filterMap_cons, h a (by simp),
      ih fun a ha => h a (by simp [ha])]

omit [DecidableEq K] in
theorem filterMap_guard_eq_filter (p : K → Bool) (l : List K) :
    (l.filterMap fun k => if p k then some k else none) = l.filter p := by
  induction l with
  | nil => rfl
  | cons a l ih => by_cases h : p a <;> simp [h, ih]

/-- The result of `get_many` written as pure functions of the input key
list and the classification of each key against the initial store. -/
theorem get_many_fst_eq (c : CacheFor K V) (now : AppTime) (ks : List K) :
    (c.get_many now ks).1 =
      { found := ks.filterMap fun k => ((c.get now k).1).map fun v => (k, v)
        not_found_keys := ks.filter fun k => !((c.get now k).1).isSome
        found_keys := ks.filter fun k => ((c.get now k).1).isSome } := by
  show foldSearchResults (c.searchMany now ks).1 = _
  rw [searchMany_fst, foldSearchResults, foldl_pushSearchResult]
  simp only [List.nil_append, List.filterMap_map]
  have h1 : ∀ a ∈ ks, (srFound ∘ classifyKey c now) a =
      ((c.get now a).1).map fun v => (a, v) := by
    intro a _
    cases h : (c.get now a).1 <;> simp [Function.comp, classifyKey, h, srFound]
  have h2 : ∀ a ∈ ks, (srFoundKey ∘ classifyKey c now) a =
      if ((c.get now a).1).isSome then some a else none := by
    intro a _
    cases h : (c.get now a).1 <;> simp [Function.comp, classifyKey, h, srFoundKey]
  have h3 : ∀ a ∈ ks, (srNotFoundKey ∘ classifyKey c now) a =
      if !((c.get now a).1).isSome then some a else none := by
    intro a _
    cases h : (c.get now a).1 <;> simp [Function.comp, classifyKey, h, srNotFoundKey]
  rw [filterMap_congr_mem h1, filterMap_congr_mem h2, filterMap_congr_mem h3,
    filterMap_guard_eq_filter, filterMap_guard_eq_filter]

/-! ## The claims -/

/-- C1.  The claim says `get_all` returns exactly the live entries.  On
the code it is the other way round: the scan's
`filter_map(|(entry, expired)| expired.then_some(entry))` keeps the
entries whose expiry verdict is `true`.  Evaluated at concrete inputs:
a live entry (store opened with policy `Never`, under which nothing is
ever expired) is dropped from the result, while an expired entry of an
`After(1)` store read at time 5 is returned. -/
theorem C1_get_all_keeps_exactly_the_expired_entries :
    ((dictionary_at_path [("cat", { value := ["kot"], created := 0 })]).get_all 5).found
        = [] ∧
    (({ expires_after := .after 1,
        db := [("k", { value := "v", created := 0 })] } : CacheFor String String).get_all
          5).found
        = [("k", "v")] :=
  ⟨rfl, rfl⟩

/-- C2.  The claim says the save path persists the appended translation
list by bypassing the store's no-overwrite `insert`.  The code hands
the appended list to the plain insert-if-absent `insert`, which
no-ops because the key already exists: after saving `"kot"` and then
`"kot2"` for `"cat"`, the persisted list still holds only `["kot"]`
stamped with the first save's time. -/
theorem C2_second_save_translation_is_silently_dropped :
    DictionaryService.save_translation
        (DictionaryService.save_translation [] 0 "cat" "kot") 1 "cat" "kot2" =
      [("cat", { value := ["kot"], created := 0 })] :=
  rfl

/-- C3, counterexample.  The claim demands `None` for any read at
`t >= t0 + d`.  With `t0 = 0`, `d = 1` the read at `t = 1` satisfies
`t >= t0 + d`, yet `expired` is `created + d < now = 1 < 1 = false`
and the code returns `Some "v"`. -/
theorem C3_counterexample_read_at_exact_expiry_instant :
    1 ≥ 0 + 1 ∧
    (({ expires_after := .after 1,
        db := [("k", { value := "v", created := 0 })] } : CacheFor String String).get
          1 "k").1
        = some "v" :=
  ⟨by decide, rfl⟩

/-- C3, amended.  For a store with policy `After(d)` holding an entry
for `k` with value `v` created at `t0`, a read at `t` returns
`Some v` and leaves the store untouched when `t ≤ t0 + d`, and
returns `None` and removes the entry when `t > t0 + d` (the strict
inequality of `ExpiresAfter::expired`, rather than the claim's
`t >= t0 + d`). -/
theorem C3_amended_expiry_semantics (c : CacheFor K V) (k : K) (v : V)
    (t0 : AppTime) (d : Duration) (t : AppTime)
    (hpol : c.expires_after = .after d)
    (hdb : dbGet c.db k = some { value := v, created := t0 }) :
    (t ≤ t0 + d → c.get t k = (some v, c)) ∧
    (t0 + d < t → c.get t k = (none, c.remove k)) := by
  rw [CacheFor.get_eq, hdb, hpol]
  constructor
  · intro h
    simp [ExpiresAfter.expired, Nat.not_lt.mpr h]
  · intro h
    simp [ExpiresAfter.expired, h]

/-- Witness for C3's amended theorem at a concrete input. -/
theorem C3_amended_expiry_semantics_witness :
    (2 ≤ 0 + 1 →
      ({ expires_after := .after 1,
         db := [("k", { value := "v", created := 0 })] } : CacheFor String String).get
           2 "k"
        = (some "v",
            { expires_after := .after 1,
              db := [("k", { value := "v", created := 0 })] })) ∧
    (0 + 1 < 2 →
      ({ expires_after := .after 1,
         db := [("k", { value := "v", created := 0 })] } : CacheFor String String).get
           2 "k"
        = (none,
            ({ expires_after := .after 1,
               db := [("k", { value := "v", created := 0 })] } :
                CacheFor String String).remove "k")) :=
  C3_amended_expiry_semantics _ "k" "v" 0 1 2 rfl rfl

/-- C4.  Insert-if-absent: if `k` reads as absent at the first insert,
and the first entry has not expired by the times of the second insert
and of the read, then after `insert(k, v1); insert(k, v2)` a `get(k)`
returns `Some v1` — the second insert is a silent no-op and the
existing mapping wins. -/
theorem C4_insert_if_absent (c : CacheFor K V) (k : K) (v1 v2 : V)
    (t1 t2 t3 : AppTime)
    (habsent : (c.get t1 k).1 = none)
    (h12 : c.expires_after.expired t1 t2 = false)
    (h13 : c.expires_after.expired t1 t3 = false) :
    (((c.insert t1 k v1).insert t2 k v2).get t3 k).1 = some v1 := by
  rcases hg : c.get t1 k with ⟨r, c'⟩
  rw [hg] at habsent
  simp only at habsent
  subst habsent
  have hc1 : c.insert t1 k v1 = c'.insert_internal k { value := v1, created := t1 } := by
    unfold CacheFor.insert
    rw [hg]
  have hpol : c'.expires_after = c.expires_after := by
    have := CacheFor.expires_after_get c t1 k
    rw [hg] at this
    exact this
  have hdb1 : dbGet (c'.insert_internal k { value := v1, created := t1 }).db k =
      some { value := v1, created := t1 } := dbGet_dbInsert_self c'.db k _
  have hget2 : (c'.insert_internal k { value := v1, created := t1 }).get t2 k =
      (some v1, c'.insert_internal k { value := v1, created := t1 }) := by
    rw [CacheFor.get_eq, hdb1]
    simp [CacheFor.insert_internal, hpol, h12]
  have hc2 : (c.insert t1 k v1).insert t2 k v2 =
      c'.insert_internal k { value := v1, created := t1 } := by
    rw [hc1]
    unfold CacheFor.insert
    rw [hget2]
  rw [hc2, CacheFor.get_eq, hdb1]
  simp [CacheFor.insert_internal, hpol, h13]

/-- Witness for C4 at a concrete input: an empty `Never` store. -/
theorem C4_insert_if_absent_witness :
    ((((⟨.never, []⟩ : CacheFor String String).insert 0 "k" "a").insert
          1 "k" "b").get 2 "k").1
      = some "a" :=
  C4_insert_if_absent ⟨.never, []⟩ "k" "a" "b" 0 1 2 rfl rfl rfl

/-- C5.  For every store, instant and input key list, the result of
`get_many` partitions the keys exactly: `found` projects to
`found_keys` (same length, same order), `found_keys ++ not_found_keys`
is a permutation of the input, no key is in both lists, and each list
preserves the input processing order (both are sublists of the
input). -/
theorem C5_get_many_partition (c : CacheFor K V) (now : AppTime) (ks : List K) :
    ((c.get_many now ks).1.found.map Prod.fst = (c.get_many now ks).1.found_keys) ∧
    ((c.get_many now ks).1.found_keys ++ (c.get_many now ks).1.not_found_keys).Perm
        ks ∧
    (∀ k, k ∈ (c.get_many now ks).1.found_keys →
        k ∉ (c.get_many now ks).1.not_found_keys) ∧
    (c.get_many now ks).1.found_keys.Sublist ks ∧
    (c.get_many now ks).1.not_found_keys.Sublist ks := by
  rw [get_many_fst_eq]
  refine ⟨?_, ?_, ?_, ?_, ?_⟩
  · rw [List.map_filterMap]
    have h : ∀ a ∈ ks,
        ((((c.get now a).1).map fun v => (a, v)).map Prod.fst) =
          if ((c.get now a).1).isSome then some a else none := by
      intro a _
      cases h : (c.get now a).1 <;> simp [h]
    rw [filterMap_congr_mem h, filterMap_guard_eq_filter]
  · exact List.filter_append_perm _ ks
  · intro k h1 h2
    rw [List.mem_filter] at h1 h2
    rcases h1 with ⟨-, h1⟩
    rcases h2 with ⟨-, h2⟩
    rw [h1] at h2
    exact Bool.noConfusion h2
  · exact List.filter_sublist ks
  · exact List.filter_sublist ks

/-- C6.  With project A holding translations `["foo","bar"]` and
project B holding `["bar","baz"]` for the same source text, and A's
results arriving before B's, `get_global_suggestions` returns exactly
the three `Exact` suggestions `foo`, `bar`, `baz` in that order: the
merge preserves arrival order and keeps only the first occurrence of
each translated text. -/
theorem C6_global_dedup_ordering :
    DictionaryService.get_global_suggestions
        (.ok [some [("src", { value := ["foo", "bar"], created := 0 })],
              some [("src", { value := ["bar", "baz"], created := 0 })]])
        0 "src" =
      .ok [{ original_text := "src", translated_text := "foo", match_type := .exact },
           { original_text := "src", translated_text := "bar", match_type := .exact },
           { original_text := "src", translated_text := "baz", match_type := .exact }] :=
  rfl

/-- C7.  Save-then-suggest round trip on a fresh project store: after
`save_translation(doc, pair, "cat", "kot")` at any instant,
`get_project_suggestions(doc, pair, "cat")` at any instant returns
exactly one suggestion, `Exact` with translated text `"kot"`. -/
theorem C7_save_then_suggest_round_trip (t1 t2 : AppTime) :
    DictionaryService.get_project_suggestions
        (DictionaryService.save_translation [] t1 "cat" "kot") t2 "cat" =
      [{ original_text := "cat", translated_text := "kot", match_type := .exact }] :=
  rfl

/-- C8.  Error policy of `get_global_suggestions`: a failure of the
enumeration step makes the whole call return that error, while
project addresses that fail to open are silently skipped — the result
is the same as if only the successfully opened dictionaries had been
listed, and an `ok` listing always yields an `ok` result. -/
theorem C8_global_suggestions_error_policy :
    (∀ (e : String) (now : AppTime) (o : String),
        DictionaryService.get_global_suggestions (.error e) now o = .error e) ∧
    (∀ (dirs : List (Option DictDb)) (now : AppTime) (o : String),
        DictionaryService.get_global_suggestions (.ok dirs) now o =
          DictionaryService.get_global_suggestions
            (.ok ((dirs.filterMap id).map some)) now o ∧
        ∃ out, DictionaryService.get_global_suggestions (.ok dirs) now o = .ok out) := by
  have hms : ∀ l : List DictDb, (l.map some).filterMap id = l := by
    intro l
    induction l with
    | nil => rfl
    | cons a l ih => simp [ih]
  refine ⟨fun e now o => rfl, fun dirs now o => ⟨?_, ⟨_, rfl⟩⟩⟩
  simp only [DictionaryService.get_global_suggestions, hms]

/-- C10.  Every dictionary store reached through the addressing layer
(`project_dictionary` delegates to `dictionary_at_path`) is opened
with policy `Never`; under that policy a read never judges an entry
expired and never deletes: for any on-disk contents, key and instant,
`get` returns exactly the stored value and leaves the store
unchanged, so stored translations stay retrievable for ever unless
explicitly removed. -/
theorem C10_dictionary_stores_never_expire :
    (∀ db : DictDb, (dictionary_at_path db).expires_after = .never ∧
        project_dictionary db = dictionary_at_path db) ∧
    (∀ (db : DictDb) (now : AppTime) (k : String),
        (dictionary_at_path db).get now k =
          ((dbGet db k).map (fun e => e.value), dictionary_at_path db)) := by
  refine ⟨fun db => ⟨rfl, rfl⟩, fun db now k => ?_⟩
  rw [CacheFor.get_eq]
  cases h : dbGet (dictionary_at_path db).db k with
  | none =>
    have : dbGet db k = none := h
    rw [this]
    rfl
  | some e =>
    have : dbGet db k = some e := h
    rw [this]
    rfl

/-! ## C9: the service-wide locking discipline

the dictionary service is `DictionaryService(Arc<RwLock<()>>)`
(main.rs).  Each public operation is projected to its sequence of
service-lock and store-open actions: `save_translation` takes the
write guard and then opens the project store; `get_project_suggestions`
takes a read guard and then opens the project store;
`get_global_suggestions` opens every discovered project store while
holding no service guard at all (the read guard inside
`get_suggestions_from_db` is taken only after each store has already
been opened).  Guards and open handles are dropped when the operation
returns.  Two concurrent operations are modelled as a small-step
system over the shared RwLock: a read guard is granted whenever no
writer holds the lock, the write guard only when there is no holder at
all. -/

/-- Kind of guard held on the service `RwLock`. -/
inductive LockKind where
  | read
  | write
deriving DecidableEq

/-- Atomic action of one dictionary-service operation, as seen by the
service lock and the store-open bookkeeping. -/
inductive Act where
  | acqRead
  | acqWrite
  | openStore (a : String)
  | finish
deriving DecidableEq

/-- State of one in-flight operation: remaining actions, addresses of
the store handles it currently holds open, and the guard it holds. -/
structure TaskState where
  prog : List Act
  opens : List String
  lock : Option LockKind
deriving DecidableEq

/-- Shared state of two concurrent operations plus the `RwLock`. -/
structure SysState where
  t1 : TaskState
  t2 : TaskState
  readers : Nat
  writer : Bool
deriving DecidableEq

/-- Execute one task's next action against the `RwLock`, when it is
enabled. -/
def stepTask (readers : Nat) (writer : Bool) (t : TaskState) :
    Option (TaskState × Nat × Bool) :=
  match t.prog with
  | [] => none
  | act :: rest =>
    match act with
    | .acqRead =>
      if writer then none
      else some ({ t with prog := rest, lock := some .read }, readers + 1, writer)
    | .acqWrite =>
      if writer || decide (readers ≠ 0) then none
      else some ({ t with prog := rest, lock := some .write }, readers, true)
    | .openStore a =>
      some ({ t with prog := rest, opens := a :: t.opens }, readers, writer)
    | .finish =>
      match t.lock with
      | some .read =>
        some ({ prog := rest, opens := [], lock := none }, readers - 1, writer)
      | some .write =>
        some ({ prog := rest, opens := [], lock := none }, readers, false)
      | none =>
        some ({ prog := rest, opens := [], lock := none }, readers, writer)

/-- Interleaving step: the chosen task (`true` for the first) executes
its next enabled action. -/
def step (s : SysState) (first : Bool) : Option SysState :=
  match first with
  | true =>
    (stepTask s.readers s.writer s.t1).map fun r =>
      { t1 := r.1, t2 := s.t2, readers := r.2.1, writer := r.2.2 }
  | false =>
    (stepTask s.readers s.writer s.t2).map fun r =>
      { t1 := s.t1, t2 := r.1, readers := r.2.1, writer := r.2.2 }

/-- Run a whole interleaving. -/
def run (s : SysState) : List Bool → Option SysState
  | [] => some s
  | b :: bs =>
    match step s b with
    | none => none
    | some s' => run s' bs

/-- A task that has not started yet. -/
def initTask (prog : List Act) : TaskState :=
  { prog := prog, opens := [], lock := none }

/-- Two operations about to run concurrently against a fresh lock. -/
def initSys (p1 p2 : List Act) : SysState :=
  { t1 := initTask p1, t2 := initTask p2, readers := 0, writer := false }

/-- Reachability under some interleaving of the two operations. -/
def Reachable (s0 s : SysState) : Prop :=
  ∃ tr : List Bool, run s0 tr = some s

/-- Lock/open skeleton of `save_translation`: acquire the write guard,
open the project store, drop everything. -/
def saveProg (a : String) : List Act :=
  [Act.acqWrite, Act.openStore a, Act.finish]

/-- Lock/open skeleton of `get_project_suggestions`: acquire a read
guard, open the project store, drop everything. -/
def getProjectProg (a : String) : List Act :=
  [Act.acqRead, Act.openStore a, Act.finish]

/-- Lock/open skeleton of `get_global_suggestions`: open every
discovered store with no service guard held. -/
def getGlobalProg (addrs : List String) : List Act :=
  addrs.map Act.openStore ++ [Act.finish]

/-- C9, counterexample.  Two concurrent `get_project_suggestions` calls
on the same document both take the shared read guard and then both
open the same address: the interleaving `t1 acquires read, t2
acquires read, t1 opens, t2 opens` reaches a state in which both
operations hold an open handle to address `"a"` simultaneously —
refuting the claim that at most one open of a given address is ever
in flight. -/
theorem C9_counterexample_concurrent_reads_double_open :
    ∃ s : SysState,
      Reachable (initSys (getProjectProg "a") (getProjectProg "a")) s ∧
      "a" ∈ s.t1.opens ∧ "a" ∈ s.t2.opens := by
  refine ⟨_, ⟨[true, false, true, false], rfl⟩, ?_, ?_⟩ <;> decide

/-- Shapes a `save_translation` task can be in, tracked by the
mutual-exclusion invariant. -/
def SaveShapes (a : String) (t : TaskState) : Prop :=
  (t.prog = [Act.acqWrite, Act.openStore a, Act.finish] ∧
    t.opens = [] ∧ t.lock = none) ∨
  (t.prog = [Act.openStore a, Act.finish] ∧
    t.opens = [] ∧ t.lock = some LockKind.write) ∨
  (t.prog = [Act.finish] ∧ t.opens = [a] ∧ t.lock = some LockKind.write) ∨
  (t.prog = [] ∧ t.opens = [] ∧ t.lock = none)

/-- Invariant for two concurrent saves: each task is in a save shape,
a held write guard is reflected in the lock state, and the write
guard is never held twice. -/
def SaveInv (a1 a2 : String) (s : SysState) : Prop :=
  SaveShapes a1 s.t1 ∧ SaveShapes a2 s.t2 ∧
  (s.t1.lock = some LockKind.write → s.writer = true) ∧
  (s.t2.lock = some LockKind.write → s.writer = true) ∧
  ¬(s.t1.lock = some LockKind.write ∧ s.t2.lock = some LockKind.write)

theorem saveInv_init (a1 a2 : String) :
    SaveInv a1 a2 (initSys (saveProg a1) (saveProg a2)) := by
  refine ⟨Or.inl ⟨rfl, rfl, rfl⟩, Or.inl ⟨rfl, rfl, rfl⟩, ?_, ?_, ?_⟩ <;> simp [initSys, initTask]

theorem saveInv_step (a1 a2 : String) (s s' : SysState) (b : Bool)
    (hinv : SaveInv a1 a2 s) (hstep : step s b = some s') :
    SaveInv a1 a2 s' := by
  obtain ⟨⟨p1, o1, l1⟩, ⟨p2, o2, l2⟩, rd, wr⟩ := s
  obtain ⟨h1, h2, hw1, hw2, hmx⟩ := hinv
  simp only at h1 h2 hw1 hw2 hmx
  cases b
  · -- second task moves
    rcases h2 with ⟨hp, ho, hl⟩ | ⟨hp, ho, hl⟩ | ⟨hp, ho, hl⟩ | ⟨hp, ho, hl⟩ <;>
      subst hp <;> subst ho <;> subst hl <;>
      simp only [step, stepTask, Option.map] at hstep
    · -- acqWrite
      cases wr with
      | true => simp at hstep
      | false =>
        by_cases hr : rd = 0
        · subst hr
          simp only [Bool.false_or, ne_eq, decide_not] at hstep
          simp at hstep
          subst hstep
          have hnl1 : ¬l1 = some LockKind.write := fun hc => by
            exact Bool.noConfusion (hw1 hc)
          exact ⟨h1, Or.inr (Or.inl ⟨rfl, rfl, rfl⟩),
            fun hc => absurd (hw1 hc) (by simp),
            fun _ => rfl, fun ⟨hc, _⟩ => hnl1 hc⟩
        · simp [hr] at hstep
    · -- openStore
      simp at hstep
      subst hstep
      exact ⟨h1, Or.inr (Or.inr (Or.inl ⟨rfl, rfl, rfl⟩)), hw1, fun _ => hw2 rfl,
        fun ⟨hc1, hc2⟩ => hmx ⟨hc1, rfl⟩⟩
    · -- finish, holding the write guard
      simp at hstep
      subst hstep
      have hnl1 : ¬l1 = some LockKind.write := fun hc => hmx ⟨hc, rfl⟩
      exact ⟨h1, Or.inr (Or.inr (Or.inr ⟨rfl, rfl, rfl⟩)),
        fun hc => absurd hc hnl1, fun hc => Option.noConfusion hc,
        fun ⟨_, hc⟩ => Option.noConfusion hc⟩
    · -- finished task cannot move
      simp at hstep
  · -- first task moves
    rcases h1 with ⟨hp, ho, hl⟩ | ⟨hp, ho, hl⟩ | ⟨hp, ho, hl⟩ | ⟨hp, ho, hl⟩ <;>
      subst hp <;> subst ho <;> subst hl <;>
      simp only [step, stepTask, Option.map] at hstep
    · -- acqWrite
      cases wr with
      | true => simp at hstep
      | false =>
        by_cases hr : rd = 0
        · subst hr
          simp only [Bool.false_or, ne_eq, decide_not] at hstep
          simp at hstep
          subst hstep
          have hnl2 : ¬l2 = some LockKind.write := fun hc => by
            exact Bool.noConfusion (hw2 hc)
          exact ⟨Or.inr (Or.inl ⟨rfl, rfl, rfl⟩), h2,
            fun _ => rfl, fun hc => absurd (hw2 hc) (by simp),
            fun ⟨_, hc⟩ => hnl2 hc⟩
        · simp [hr] at hstep
    · -- openStore
      simp at hstep
      subst hstep
      exact ⟨Or.inr (Or.inr (Or.inl ⟨rfl, rfl, rfl⟩)), h2, fun _ => hw1 rfl, hw2,
        fun ⟨hc1, hc2⟩ => hmx ⟨rfl, hc2⟩⟩
    · -- finish, holding the write guard
      simp at hstep
      subst hstep
      have hnl2 : ¬l2 = some LockKind.write := fun hc => hmx ⟨rfl, hc⟩
      exact ⟨Or.inr (Or.inr (Or.inr ⟨rfl, rfl, rfl⟩)), h2,
        fun hc => Option.noConfusion hc, fun hc => absurd hc hnl2,
        fun ⟨hc, _⟩ => Option.noConfusion hc⟩
    · -- finished task cannot move
      simp at hstep

theorem saveInv_run (a1 a2 : String) (tr : List Bool) (s0 s : SysState)
    (hinv : SaveInv a1 a2 s0) (hrun : run s0 tr = some s) :
    SaveInv a1 a2 s := by
  induction tr generalizing s0 with
  | nil =>
    simp only [run] at hrun
    cases hrun
    exact hinv
  | cons b bs ih =>
    simp only [run] at hrun
    cases hstep : step s0 b with
    | none => rw [hstep] at hrun; exact absurd hrun (by simp)
    | some s1 =>
      rw [hstep] at hrun
      exact ih s1 (saveInv_step a1 a2 s0 s1 b hinv hstep) hrun

/-- C9, amended.  The exclusive write guard does serialize the save
path: in every state reachable from two concurrent
`save_translation` operations (any addresses), at most one of them
holds an open store handle — so no two concurrent saves ever have an
open of the same address in flight.  The claim's full statement fails
for the read-guarded and unguarded suggestion paths, per the
counterexample. -/
theorem C9_amended_concurrent_saves_never_double_open (a1 a2 : String)
    (s : SysState)
    (h : Reachable (initSys (saveProg a1) (saveProg a2)) s) :
    s.t1.opens = [] ∨ s.t2.opens = [] := by
  obtain ⟨tr, hrun⟩ := h
  have hinv := saveInv_run a1 a2 tr _ s (saveInv_init a1 a2) hrun
  obtain ⟨h1, h2, -, -, hmx⟩ := hinv
  rcases h1 with ⟨-, ho, -⟩ | ⟨-, ho, -⟩ | ⟨-, ho, hl⟩ | ⟨-, ho, -⟩
  · exact Or.inl ho
  · exact Or.inl ho
  · rcases h2 with ⟨-, ho2, -⟩ | ⟨-, ho2, -⟩ | ⟨-, ho2, hl2⟩ | ⟨-, ho2, -⟩
    · exact Or.inr ho2
    · exact Or.inr ho2
    · exact absurd ⟨hl, hl2⟩ hmx
    · exact Or.inr ho2
  · exact Or.inl ho

/-- Witness for C9's amended theorem: the state in which the first
save holds its open handle, reached by the interleaving where the
first save acquires the write guard and opens its store. -/
theorem C9_amended_concurrent_saves_never_double_open_witness :
    ({ t1 := { prog := [Act.finish], opens := ["a"], lock := some LockKind.write },
       t2 := initTask (saveProg "a"), readers := 0,
       writer := true } : SysState).t1.opens = [] ∨
    ({ t1 := { prog := [Act.finish], opens := ["a"], lock := some LockKind.write },
       t2 := initTask (saveProg "a"), readers := 0,
       writer := true } : SysState).t2.opens = [] :=
  C9_amended_concurrent_saves_never_double_open "a" "a" _ ⟨[true, true], by decide⟩

end Tlumok
